import Mathlib

/-!
# Verification of the QuizClash backend question-sampling and scoring logic

This file is a shallow embedding, in Lean 4, of the behavioural core of the
`quizclash-backend` repository:

* `smart_question_sampling` and `weighted_random_selection`
  (`backend/main.py`, lines 2407-2551),
* the question-generation cache (`backend/main.py`, lines 56-57 and 2301-2394),
* solo-game answer scoring (`backend/main.py`, lines 1220-1240),
* tournament answer scoring (`backend/tournament_api.py`, lines 1213-1222),
* tournament session completion and rank assignment
  (`backend/tournament_api.py`, lines 1297-1325),
* the two tournament ranking paths (`backend/tournament_api.py`,
  lines 759-794 and 1500-1507),
* the achievement evaluator (`backend/achievements_api.py`, lines 234-340).

Python `random` calls are modelled by an explicit source of randomness
(`RandSrc`): an abstract shuffle together with an abstract index choice for
`random.choices`.  The well-formedness predicate `RandSrc.Wf` states exactly
what the Python library guarantees: a shuffle permutes its input, and a
weighted choice over a non-empty population picks an element of it.
-/

/-- A question row as used by the sampling engine: only the fields the
algorithm reads (`topic_id`, `times_asked`) plus the primary key. -/
structure Question where
  qid : Nat
  topic_id : Nat
  times_asked : Nat
deriving DecidableEq, Repr

/-- Default question used to totalise list indexing; never reached when the
randomness source is well formed. -/
def dummyQuestion : Question := ⟨0, 0, 0⟩

/-- Python list slice `l[:k]` where `k` may be negative: a negative bound
counts from the end of the list (`l[:-1]` drops the last element). -/
def pyTake (l : List α) (k : Int) : List α :=
  if 0 ≤ k then l.take k.toNat else l.take (l.length - (-k).toNat)

/-- The randomness used by the sampling engine: `shuffle` models
`random.shuffle`, and `choiceIdx qs ws` models the index of the element
drawn by `random.choices(qs, weights=ws, k=1)[0]`. -/
structure RandSrc where
  shuffle : List Question → List Question
  choiceIdx : List Question → List Nat → Nat

/-- What the Python `random` library guarantees about the two operations:
a shuffle is a permutation, and a choice from a non-empty population is an
index into it (all weights used by this program are ≥ 1). -/
structure RandSrc.Wf (r : RandSrc) : Prop where
  shuffle_perm : ∀ l, (r.shuffle l).Perm l
  choice_lt : ∀ qs ws, qs ≠ [] → r.choiceIdx qs ws < qs.length

/-- The selection loop of `weighted_random_selection` (main.py 2434-2445):
repeatedly draw one question by weighted choice, then remove it and its
weight at the first index at which it occurs (`available_questions.index`). -/
def weightedPickLoop (r : RandSrc) : Nat → List Question → List Nat → List Question
  | 0, _, _ => []
  | _ + 1, [], _ => []
  | n + 1, q :: qs, ws =>
      let sel := (q :: qs).getD (r.choiceIdx (q :: qs) ws) dummyQuestion
      let i := List.indexOf sel (q :: qs)
      sel :: weightedPickLoop r n ((q :: qs).eraseIdx i) (ws.eraseIdx i)

/-- `weighted_random_selection(questions, count)` (main.py 2407-2447). -/
def weighted_random_selection (r : RandSrc) (questions : List Question) (count : Int) :
    List Question :=
  if questions.isEmpty ∨ count ≤ 0 then []
  else if (questions.length : Int) ≤ count then r.shuffle questions
  else
    let max_times_asked := (questions.map Question.times_asked).foldl Nat.max 0 + 1
    let weights := questions.map (fun q => max_times_asked - q.times_asked)
    weightedPickLoop r (min count.toNat questions.length) questions weights

/-- `sample_size = min(20, len(questions))` (main.py 2466). -/
def sample_size (questions : List Question) : Nat := min 20 questions.length

/-- `zero_count = sum(1 for q in sample_questions if q.times_asked == 0)`
(main.py 2467-2468). -/
def zero_count (questions : List Question) : Nat :=
  ((questions.take (sample_size questions)).filter (fun q => q.times_asked == 0)).length

/-- `use_enhanced_randomization = (zero_count / sample_size) >= 0.7`
(main.py 2471).  The Python comparison is between IEEE doubles; for
`sample_size ≤ 20` both sides are exactly representable up to correct
rounding and the test coincides with the exact rational comparison
`zero_count / sample_size ≥ 7/10`, i.e. `7 * sample_size ≤ 10 * zero_count`. -/
def use_enhanced_randomization (questions : List Question) : Bool :=
  decide (7 * sample_size questions ≤ 10 * zero_count questions)

/-- First-occurrence deduplication: the key list of a Python dict built by
insertion (`topic_questions` at main.py 2475-2480 keeps each `topic_id` in
order of first appearance). -/
def firstOccurrences : List Nat → List Nat
  | [] => []
  | t :: ts => t :: (firstOccurrences ts).filter (fun u => u != t)

/-- `topic_ids_list = list(topic_questions.keys())` (main.py 2505). -/
def topic_ids_list (questions : List Question) : List Nat :=
  firstOccurrences (questions.map Question.topic_id)

/-- `topic_questions[topic_id]` before the per-topic randomization pass:
the pool questions of one topic, in pool order (main.py 2475-2480). -/
def topic_group (questions : List Question) (t : Nat) : List Question :=
  questions.filter (fun q => q.topic_id == t)

/-- Comparison key `lambda q: q.times_asked` used by `list.sort`
(main.py 2493 and 2532). -/
def timesAskedLe (a b : Question) : Bool := decide (a.times_asked ≤ b.times_asked)

/-- The per-topic randomization pass (main.py 2486-2493): with enhanced
randomization each topic list is replaced by
`weighted_random_selection(topic_questions[t], len(topic_questions[t]))`,
otherwise it is shuffled and then stably sorted by `times_asked`. -/
def topic_randomized (r : RandSrc) (questions : List Question) (t : Nat) : List Question :=
  if use_enhanced_randomization questions then
    weighted_random_selection r (topic_group questions t)
      ((topic_group questions t).length : Int)
  else
    (r.shuffle (topic_group questions t)).mergeSort timesAskedLe

/-- `questions_per_topic = count // len(topic_questions)` (main.py 2499);
Python `//` is floor division. -/
def questions_per_topic (count : Int) (numTopics : Nat) : Int :=
  count.fdiv numTopics

/-- `remaining_questions = count % len(topic_questions)` (main.py 2500);
Python `%` agrees with `Int.fmod` for a positive divisor. -/
def remaining_questions (count : Int) (numTopics : Nat) : Int :=
  count.fmod numTopics

/-- The number of slots the topic at iteration index `i` receives
(main.py 2508-2510): the base share plus one extra slot for the first
`remaining_questions` topics. -/
def topic_count (count : Int) (numTopics : Nat) (i : Nat) : Int :=
  questions_per_topic count numTopics +
    (if (i : Int) < remaining_questions count numTopics then 1 else 0)

/-- The distribution loop `for i, topic_id in enumerate(topic_ids_list)`
(main.py 2506-2515): from each topic take the slice
`available_questions[:min(topic_count, len(available_questions))]`. -/
def distribute_loop (r : RandSrc) (questions : List Question) (count : Int)
    (numTopics : Nat) : List Nat → Nat → List Question
  | [], _ => []
  | t :: ts, i =>
      pyTake (topic_randomized r questions t)
          (min (topic_count count numTopics i) ((topic_randomized r questions t).length : Int))
        ++ distribute_loop r questions count numTopics ts (i + 1)

/-- `selected_questions` after the per-topic distribution (main.py 2498-2515). -/
def selected_per_topic (r : RandSrc) (questions : List Question) (count : Int) :
    List Question :=
  distribute_loop r questions count (topic_ids_list questions).length
    (topic_ids_list questions) 0

/-- The top-up step (main.py 2521-2533): when the per-topic distribution
under-fills, add questions not yet selected, by weighted selection in
enhanced mode and by shuffle-sort-prefix otherwise. -/
def top_up (r : RandSrc) (questions : List Question) (count : Int)
    (selected : List Question) : List Question :=
  if (selected.length : Int) < count then
    let remaining_needed := count - selected.length
    let all_remaining := questions.filter (fun q => decide (q ∉ selected))
    if use_enhanced_randomization questions = true ∧ all_remaining ≠ [] then
      selected ++ weighted_random_selection r all_remaining remaining_needed
    else
      selected ++ pyTake ((r.shuffle all_remaining).mergeSort timesAskedLe) remaining_needed
  else selected

/-- `smart_question_sampling(questions, count, topic_ids)` (main.py
2449-2551).  The `topic_ids` argument of the Python function is unused by
its body and is dropped here.  The `except` fallback at main.py 2545-2551
is unreachable: the body raises no exception (every division in it has a
non-zero divisor and every index is in range), so it is not part of the
model. -/
def smart_question_sampling (r : RandSrc) (questions : List Question) (count : Int) :
    List Question :=
  if questions.isEmpty then []
  else if (questions.length : Int) ≤ count then questions
  else
    pyTake
      (r.shuffle (top_up r questions count (selected_per_topic r questions count)))
      count

/-- Identity randomness source: shuffles leave the list unchanged and the
weighted choice always draws index 0.  Used to instantiate theorems at
concrete inputs. -/
def idRand : RandSrc := ⟨fun l => l, fun _ _ => 0⟩

/-! ## Tournament answer scoring (tournament_api.py 1213-1222) -/

/-- Points for one tournament answer: `base_points = 100` plus
`speed_bonus = max(0, 50 - (time_taken * 2))` when the selected option
index equals the question's `correct_answer`, otherwise 0. -/
def tournament_answer_points (selected_answer correct_answer : Nat)
    (time_taken : Int) : Int :=
  if selected_answer = correct_answer then 100 + max 0 (50 - time_taken * 2) else 0

/-! ## Solo-game answer scoring (main.py 1220-1240) -/

/-- Session counters of a solo `GameSession` touched by `submit_answer`. -/
structure GameSessionState where
  questions_answered : Nat
  correct_answers : Nat
  total_score : Int
deriving DecidableEq, Repr

/-- The `GameAnswer` row written by the solo `submit_answer` handler. -/
structure GameAnswerRec where
  selected_answer : Nat
  is_correct : Bool
  time_taken : Int
  points_earned : Int
deriving DecidableEq, Repr

/-- The solo `submit_answer` path (main.py 1220-1240):
`is_correct = selected == correct`, `points_earned = 10 if is_correct else 0`,
then the session counters are bumped.  `time_taken` is recorded on the
answer row but never used for scoring. -/
def submit_answer (session : GameSessionState) (selected_answer correct_answer : Nat)
    (time_taken : Int) : GameAnswerRec × GameSessionState :=
  let is_correct := selected_answer = correct_answer
  let points_earned : Int := if is_correct then 10 else 0
  (⟨selected_answer, is_correct, time_taken, points_earned⟩,
   ⟨session.questions_answered + 1,
    session.correct_answers + (if is_correct then 1 else 0),
    session.total_score + points_earned⟩)

/-! ## Tournament participants, ranking and session completion -/

/-- A `TournamentParticipant` row, restricted to the fields the ranking and
completion code reads or writes.  The SQL `Float` columns `accuracy` is
modelled by `ℚ` (exact values; only its ordering is used). -/
structure TournamentParticipantRec where
  pid : Nat
  user_id : Nat
  tournament_id : Nat
  has_played : Bool
  score : Int
  accuracy : ℚ
  time_taken : Int
  rank : Nat
deriving DecidableEq, Repr

/-- The `ORDER BY score DESC, accuracy DESC, time_taken ASC` comparison of
the basic leaderboard endpoint (tournament_api.py 769-773). -/
def leaderboard_le (a b : TournamentParticipantRec) : Bool :=
  decide (b.score < a.score ∨ (a.score = b.score ∧
    (b.accuracy < a.accuracy ∨ (a.accuracy = b.accuracy ∧ a.time_taken ≤ b.time_taken))))

/-- `GET /{tournament_id}/leaderboard` (tournament_api.py 759-794): keep the
participants of the tournament with `has_played`, order them by score
descending, accuracy descending, time ascending, and pair each with its
1-based position `i + 1` as `rank`. -/
def get_tournament_leaderboard (tournament_id : Nat)
    (ps : List TournamentParticipantRec) : List (TournamentParticipantRec × Nat) :=
  let participants :=
    (ps.filter (fun p => p.tournament_id == tournament_id && p.has_played)).mergeSort
      leaderboard_le
  participants.enum.map (fun ip => (ip.2, ip.1 + 1))

/-- A `TournamentAnswer` row as read by the detailed-results endpoint. -/
structure ParticipantAnswer where
  is_correct : Bool
  time_taken : Int
  points_earned : Int
deriving DecidableEq, Repr

/-- The per-participant aggregate built by the detailed-results endpoint
(tournament_api.py 1473-1478): totals recomputed from the answer rows. -/
structure ParticipantResult where
  user_id : Nat
  total_score : Int
  correct_answers : Nat
  time_taken : Int
deriving DecidableEq, Repr

/-- `participant_result` construction (tournament_api.py 1473-1496). -/
def participant_result (p : TournamentParticipantRec)
    (answers : List ParticipantAnswer) : ParticipantResult :=
  ⟨p.user_id,
   (answers.map ParticipantAnswer.points_earned).sum,
   (answers.filter ParticipantAnswer.is_correct).length,
   (answers.map ParticipantAnswer.time_taken).sum⟩

/-- The Python sort key `(-total_score, -correct_answers, time_taken)`
(tournament_api.py 1501), as the induced "comes no later than" relation. -/
def detailed_le (a b : ParticipantResult) : Bool :=
  decide (b.total_score < a.total_score ∨ (a.total_score = b.total_score ∧
    (b.correct_answers < a.correct_answers ∨ (a.correct_answers = b.correct_answers ∧
      a.time_taken ≤ b.time_taken))))

/-- `GET /{tournament_id}/detailed-results` (tournament_api.py 1411-1507):
participants with `has_played` whose session is found get their totals
recomputed from answers, are sorted by score descending, correct answers
descending, time ascending, and are paired with 1-based ranks
(`enumerate(participant_results, 1)`).  `session_answers p.pid = none`
models a participant whose user or session lookup fails and who is skipped
(`continue`). -/
def get_tournament_detailed_results (ps : List TournamentParticipantRec)
    (session_answers : Nat → Option (List ParticipantAnswer)) :
    List (ParticipantResult × Nat) :=
  let played := ps.filter (fun p => p.has_played)
  let results := played.filterMap
    (fun p => (session_answers p.pid).map (participant_result p))
  let sorted := results.mergeSort detailed_le
  sorted.enum.map (fun ip => (ip.2, ip.1 + 1))

/-- The participant-update half of `complete_tournament_session`
(tournament_api.py 1297-1311): set `has_played`, copy the session totals
onto the participant row, commit. -/
def mark_played (ps : List TournamentParticipantRec) (pid : Nat) (total_score : Int)
    (accuracy : ℚ) (time_spent : Int) : List TournamentParticipantRec :=
  ps.map (fun q => if q.pid == pid then
    { q with has_played := true, score := total_score, accuracy := accuracy,
             time_taken := time_spent }
    else q)

/-- The rank query of `complete_tournament_session` (tournament_api.py
1317-1322): the number of participants of the tournament with
`has_played == True` and a strictly greater score. -/
def better_scores (ps : List TournamentParticipantRec) (tournament_id : Nat)
    (score : Int) : Nat :=
  (ps.filter (fun q => q.tournament_id == tournament_id && q.has_played
    && decide (score < q.score))).length

/-- `complete_tournament_session` (tournament_api.py 1297-1325), as a
transition on the participant table: first the participant row is updated
(`has_played := true`, totals copied) and committed, then its rank is set
to `better_scores + 1` computed on the committed state. -/
def complete_tournament_session (ps : List TournamentParticipantRec) (pid : Nat)
    (tournament_id : Nat) (total_score : Int) (accuracy : ℚ) (time_spent : Int) :
    List TournamentParticipantRec :=
  let ps1 := mark_played ps pid total_score accuracy time_spent
  let rank := better_scores ps1 tournament_id total_score + 1
  ps1.map (fun q => if q.pid == pid then { q with rank := rank } else q)

/-! ## Question-generation cache (main.py 56-57, 2301-2309, 2391-2394) -/

/-- `CACHE_DURATION = 300  # 5 minutes` (main.py 57). -/
def CACHE_DURATION : Int := 300

/-- The module-level dict `question_cache`, as an association list mapping a
cache key to `(cached_data, cache_time)`; an assignment shadows older
entries (lookup returns the most recent binding). -/
def cacheLookup {K V : Type} [DecidableEq K] (question_cache : List (K × V × Int))
    (cache_key : K) : Option (V × Int) :=
  (question_cache.find? (fun e => e.1 == cache_key)).map (fun e => e.2)

/-- The cache discipline of `generate_questions` from the cache check
onward (main.py 2301-2405): if the key is present and the entry is younger
than `CACHE_DURATION`, return it and leave the cache unchanged (2305-2309).
Otherwise the database path runs: on success (`compute = some result`) the
result is stored as `(result, current_time)` and returned (2391-2394); on
any of the fallback paths — no matching subject or topics (2323-2325), no
questions available (2352-2354), or a raised database error (2398-2405) —
`generate_sample_questions` is returned (`compute = none`, value
`sample_questions`) and **nothing is written to the cache**. -/
def generate_questions_cached {K V : Type} [DecidableEq K]
    (question_cache : List (K × V × Int)) (cache_key : K) (current_time : Int)
    (compute : Option V) (sample_questions : V) : V × List (K × V × Int) :=
  match cacheLookup question_cache cache_key with
  | some (cached_data, cache_time) =>
      if current_time - cache_time < CACHE_DURATION then
        (cached_data, question_cache)
      else
        match compute with
        | some result => (result, (cache_key, result, current_time) :: question_cache)
        | none => (sample_questions, question_cache)
  | none =>
      match compute with
      | some result => (result, (cache_key, result, current_time) :: question_cache)
      | none => (sample_questions, question_cache)

/-! ## Achievement evaluation (achievements_api.py 234-340) -/

/-- The per-user stats snapshot fields read by the evaluator. -/
structure UserStats where
  games_played : Nat
  win_rate : Int
deriving DecidableEq, Repr

/-- The per-game payload fields read by the evaluator.  The float values
(`accuracy`) are modelled by `Int`; only threshold comparisons are made. -/
structure GameData where
  total_score : Int
  accuracy : Int
  time_spent : Int
deriving DecidableEq, Repr

/-- `ACHIEVEMENT_DEFINITIONS` (achievements_api.py 124-232), restricted to
the fields the evaluator consults: the id and the display `name` used for
the already-unlocked check.  The emoji prefix of each name is elided; names
are only ever compared for equality. -/
def ACHIEVEMENT_DEFINITIONS : List (String × String) :=
  [("first_steps", "First Steps"),
   ("getting_started", "Getting Started"),
   ("century_club", "Century Club"),
   ("perfectionist", "Perfectionist"),
   ("speed_demon", "Speed Demon"),
   ("sharpshooter", "Sharpshooter"),
   ("quiz_master", "Quiz Master"),
   ("high_scorer", "High Scorer"),
   ("legend", "Legend"),
   ("tournament_champion", "Tournament Champion")]

/-- `ACHIEVEMENT_DEFINITIONS[achievement_id]["name"]`, `none` when
`achievement_id not in ACHIEVEMENT_DEFINITIONS`. -/
def achievement_name (achievement_id : String) : Option String :=
  (ACHIEVEMENT_DEFINITIONS.find? (fun d => d.1 == achievement_id)).map (fun d => d.2)

/-- `priority_achievements` (achievements_api.py 269). -/
def priority_achievements : List String :=
  ["first_steps", "century_club", "perfectionist", "high_scorer", "legend"]

/-- `max_achievements_to_check = 5` (achievements_api.py 266). -/
def max_achievements_to_check : Nat := 5

/-- The `should_unlock` decision chain (achievements_api.py 291-312). -/
def should_unlock (achievement_id : String) (user_stats : UserStats)
    (game_data : GameData) : Bool :=
  if achievement_id = "first_steps" then decide (1 ≤ user_stats.games_played)
  else if achievement_id = "getting_started" then decide (10 ≤ user_stats.games_played)
  else if achievement_id = "century_club" then decide (100 ≤ game_data.total_score)
  else if achievement_id = "perfectionist" then decide (100 ≤ game_data.accuracy)
  else if achievement_id = "speed_demon" then decide (game_data.time_spent ≤ 30)
  else if achievement_id = "sharpshooter" then
    decide (10 ≤ user_stats.games_played) && decide (80 ≤ user_stats.win_rate)
  else if achievement_id = "quiz_master" then decide (50 ≤ user_stats.games_played)
  else if achievement_id = "high_scorer" then decide (500 ≤ game_data.total_score)
  else if achievement_id = "legend" then decide (1000 ≤ game_data.total_score)
  else false

/-- The evaluation loop of `evaluate_achievements` (achievements_api.py
271-337).  `timeout_hit step` models the wall-clock test
`time.time() - start_time > timeout_seconds` at the `step`-th loop entry;
the loop stops when it fires or when `processed_count` reaches
`max_achievements_to_check`.  Ids missing from `ACHIEVEMENT_DEFINITIONS`
are skipped without counting; an id whose name is already held is skipped
after counting; otherwise the predicate decides the unlock.  The returned
list holds the unlocked achievement ids in order. -/
def evaluate_achievements_loop (timeout_hit : Nat → Bool) (existing_names : List String)
    (user_stats : UserStats) (game_data : GameData) :
    List String → Nat → Nat → List String
  | [], _, _ => []
  | achievement_id :: rest, step, processed_count =>
      if timeout_hit step then []
      else if max_achievements_to_check ≤ processed_count then []
      else
        match achievement_name achievement_id with
        | none => evaluate_achievements_loop timeout_hit existing_names user_stats
            game_data rest (step + 1) processed_count
        | some nm =>
            if nm ∈ existing_names then
              evaluate_achievements_loop timeout_hit existing_names user_stats
                game_data rest (step + 1) (processed_count + 1)
            else if should_unlock achievement_id user_stats game_data then
              achievement_id :: evaluate_achievements_loop timeout_hit existing_names
                user_stats game_data rest (step + 1) (processed_count + 1)
            else
              evaluate_achievements_loop timeout_hit existing_names user_stats
                game_data rest (step + 1) (processed_count + 1)

/-- `evaluate_achievements` (achievements_api.py 234-340): run the loop over
`priority_achievements` against the user's current achievement-name set. -/
def evaluate_achievements (timeout_hit : Nat → Bool) (existing_names : List String)
    (user_stats : UserStats) (game_data : GameData) : List String :=
  evaluate_achievements_loop timeout_hit existing_names user_stats game_data
    priority_achievements 0 0

/-- The names persisted for a list of unlocked achievement ids: each new
`Achievement` row stores `definition["name"]` (achievements_api.py 316-323). -/
def unlocked_names (ids : List String) : List String :=
  ids.filterMap achievement_name

/-! ## Basic facts about the Python slice model -/

theorem idRand_wf : idRand.Wf := by
  constructor
  · intro l; exact List.Perm.refl l
  · intro qs ws h
    cases qs with
    | nil => exact absurd rfl h
    | cons a t => simp [idRand]

theorem pyTake_sublist (l : List α) (k : Int) : (pyTake l k).Sublist l := by
  unfold pyTake
  split <;> exact List.take_sublist _ _

theorem pyTake_subset (l : List α) (k : Int) : pyTake l k ⊆ l :=
  (pyTake_sublist l k).subset

theorem pyTake_nodup {l : List α} (h : l.Nodup) (k : Int) : (pyTake l k).Nodup :=
  (pyTake_sublist l k).nodup h

theorem pyTake_length_of_nonneg {k : Int} (l : List α) (hk : 0 ≤ k) :
    (pyTake l k).length = min k.toNat l.length := by
  simp [pyTake, hk, List.length_take]

theorem pyTake_zero (l : List α) : pyTake l 0 = [] := by
  simp [pyTake]

/-! ## Sanity theorems for the weighted-selection loop -/

theorem weightedPickLoop_subset {r : RandSrc} (hr : r.Wf) :
    ∀ (n : Nat) (qs : List Question) (ws : List Nat),
      weightedPickLoop r n qs ws ⊆ qs := by
  intro n
  induction n with
  | zero => intro qs ws x hx; simp [weightedPickLoop] at hx
  | succ n ih =>
    intro qs ws x hx
    match qs with
    | [] => simp [weightedPickLoop] at hx
    | q :: qs' =>
      have hlt : r.choiceIdx (q :: qs') ws < (q :: qs').length :=
        hr.choice_lt _ _ (by simp)
      rw [weightedPickLoop] at hx
      simp only [List.getD_eq_getElem _ _ hlt, List.mem_cons] at hx
      rcases hx with rfl | hx
      · exact List.getElem_mem hlt
      · exact (List.eraseIdx_sublist _ _).subset (ih _ _ hx)

theorem weightedPickLoop_length {r : RandSrc} (hr : r.Wf) :
    ∀ (n : Nat) (qs : List Question) (ws : List Nat),
      (weightedPickLoop r n qs ws).length = min n qs.length := by
  intro n
  induction n with
  | zero => intro qs ws; simp [weightedPickLoop]
  | succ n ih =>
    intro qs ws
    match qs with
    | [] => simp [weightedPickLoop]
    | q :: qs' =>
      have hlt : r.choiceIdx (q :: qs') ws < (q :: qs').length :=
        hr.choice_lt _ _ (by simp)
      rw [weightedPickLoop]
      simp only [List.length_cons]
      have hsel : (q :: qs').getD (r.choiceIdx (q :: qs') ws) dummyQuestion ∈ q :: qs' := by
        rw [List.getD_eq_getElem _ _ hlt]; exact List.getElem_mem hlt
      have hidx : List.indexOf ((q :: qs').getD (r.choiceIdx (q :: qs') ws) dummyQuestion)
          (q :: qs') < (q :: qs').length := List.indexOf_lt_length.mpr hsel
      rw [ih]
      rw [List.length_eraseIdx]
      simp only [hidx, if_true]
      simp only [List.length_cons] at hidx ⊢
      omega

theorem weightedPickLoop_nodup {r : RandSrc} (hr : r.Wf) :
    ∀ (n : Nat) (qs : List Question) (ws : List Nat), qs.Nodup →
      (weightedPickLoop r n qs ws).Nodup := by
  intro n
  induction n with
  | zero => intro qs ws _; simp [weightedPickLoop]
  | succ n ih =>
    intro qs ws hqs
    match qs with
    | [] => simp [weightedPickLoop]
    | q :: qs' =>
      rw [weightedPickLoop]
      rw [List.eraseIdx_indexOf_eq_erase]
      refine List.nodup_cons.mpr ⟨?_, ih _ _ (hqs.erase _)⟩
      intro hmem
      exact hqs.not_mem_erase (weightedPickLoop_subset hr _ _ _ hmem)

/-! ## Facts about `weighted_random_selection` -/

theorem weighted_random_selection_subset {r : RandSrc} (hr : r.Wf)
    (questions : List Question) (count : Int) :
    weighted_random_selection r questions count ⊆ questions := by
  unfold weighted_random_selection
  split
  · intro x hx; simp at hx
  · split
    · exact (hr.shuffle_perm questions).subset
    · exact weightedPickLoop_subset hr _ _ _

theorem weighted_random_selection_nodup {r : RandSrc} (hr : r.Wf)
    {questions : List Question} (hq : questions.Nodup) (count : Int) :
    (weighted_random_selection r questions count).Nodup := by
  unfold weighted_random_selection
  split
  · simp
  · split
    · exact ((hr.shuffle_perm questions).symm.nodup hq)
    · exact weightedPickLoop_nodup hr _ _ _ hq

theorem weighted_random_selection_length {r : RandSrc} (hr : r.Wf)
    (questions : List Question) (count : Int) :
    (weighted_random_selection r questions count).length
      = min count.toNat questions.length := by
  unfold weighted_random_selection
  split
  · rename_i h
    rcases h with h | h
    · have : questions = [] := by simpa [List.isEmpty_iff] using h
      simp [this]
    · have : count.toNat = 0 := by omega
      simp [this]
  · rename_i h
    push_neg at h
    obtain ⟨hne, hpos⟩ := h
    split
    · rename_i hle
      rw [(hr.shuffle_perm questions).length_eq]
      omega
    · rename_i hgt
      push_neg at hgt
      rw [weightedPickLoop_length hr]
      omega

/-- With a well-formed randomness source and when asked for the whole topic
list, `weighted_random_selection` permutes its input (main.py 2417-2419). -/
theorem weighted_random_selection_perm_self {r : RandSrc} (hr : r.Wf)
    (questions : List Question) :
    (weighted_random_selection r questions (questions.length : Int)).Perm questions := by
  unfold weighted_random_selection
  split
  · rename_i h
    have : questions = [] := by
      rcases h with h | h
      · simpa [List.isEmpty_iff] using h
      · have := questions.length_pos
        cases questions with
        | nil => rfl
        | cons a l => simp at h; omega
    simp [this]
  · split
    · exact hr.shuffle_perm questions
    · rename_i h hle
      exact absurd le_rfl hle

/-! ## Topic grouping facts -/

theorem mem_topic_group {questions : List Question} {t : Nat} {x : Question} :
    x ∈ topic_group questions t ↔ x ∈ questions ∧ x.topic_id = t := by
  simp [topic_group]

theorem topic_group_nodup {questions : List Question} (h : questions.Nodup) (t : Nat) :
    (topic_group questions t).Nodup := h.filter _

theorem firstOccurrences_nodup : ∀ l : List Nat, (firstOccurrences l).Nodup := by
  intro l
  induction l with
  | nil => simp [firstOccurrences]
  | cons t ts ih =>
    rw [firstOccurrences]
    refine List.nodup_cons.mpr ⟨?_, ih.filter _⟩
    intro hmem
    have := (List.mem_filter.mp hmem).2
    simp at this

theorem mem_firstOccurrences : ∀ (l : List Nat) (a : Nat),
    a ∈ firstOccurrences l ↔ a ∈ l := by
  intro l
  induction l with
  | nil => intro a; simp [firstOccurrences]
  | cons t ts ih =>
    intro a
    rw [firstOccurrences]
    by_cases hat : a = t
    · subst hat; simp
    · simp only [List.mem_cons, List.mem_filter, ih, bne_iff_ne, ne_eq]
      constructor
      · rintro (rfl | ⟨h, _⟩)
        · exact .inl rfl
        · exact .inr h
      · rintro (rfl | h)
        · exact .inl rfl
        · exact .inr ⟨h, hat⟩

theorem topic_id_mem_topic_ids_list {questions : List Question} {x : Question}
    (hx : x ∈ questions) : x.topic_id ∈ topic_ids_list questions := by
  rw [topic_ids_list, mem_firstOccurrences]
  exact List.mem_map.mpr ⟨x, hx, rfl⟩

theorem topic_ids_list_nodup (questions : List Question) :
    (topic_ids_list questions).Nodup := firstOccurrences_nodup _

/-- The per-topic randomization pass permutes each topic's question list. -/
theorem topic_randomized_perm {r : RandSrc} (hr : r.Wf) (questions : List Question)
    (t : Nat) : (topic_randomized r questions t).Perm (topic_group questions t) := by
  unfold topic_randomized
  split
  · exact weighted_random_selection_perm_self hr _
  · exact (List.mergeSort_perm _ _).trans (hr.shuffle_perm _)

theorem topic_randomized_length {r : RandSrc} (hr : r.Wf) (questions : List Question)
    (t : Nat) :
    (topic_randomized r questions t).length = (topic_group questions t).length :=
  (topic_randomized_perm hr questions t).length_eq

/-! ## Facts about the distribution loop -/

theorem distribute_loop_mem {r : RandSrc} (hr : r.Wf) (questions : List Question)
    (count : Int) (numTopics : Nat) :
    ∀ (ts : List Nat) (i : Nat) (x : Question),
      x ∈ distribute_loop r questions count numTopics ts i →
        ∃ t ∈ ts, x ∈ questions ∧ x.topic_id = t := by
  intro ts
  induction ts with
  | nil => intro i x hx; simp [distribute_loop] at hx
  | cons t ts' ih =>
    intro i x hx
    rw [distribute_loop] at hx
    rcases List.mem_append.mp hx with hx | hx
    · have hx' := (topic_randomized_perm hr questions t).subset (pyTake_subset _ _ hx)
      have := mem_topic_group.mp hx'
      exact ⟨t, List.mem_cons_self t ts', this⟩
    · obtain ⟨u, hu, hxu⟩ := ih (i + 1) x hx
      exact ⟨u, List.mem_cons_of_mem _ hu, hxu⟩

theorem distribute_loop_subset {r : RandSrc} (hr : r.Wf) (questions : List Question)
    (count : Int) (numTopics : Nat) (ts : List Nat) (i : Nat) :
    distribute_loop r questions count numTopics ts i ⊆ questions := by
  intro x hx
  obtain ⟨t, _, hxq, _⟩ := distribute_loop_mem hr questions count numTopics ts i x hx
  exact hxq

theorem distribute_loop_nodup {r : RandSrc} (hr : r.Wf) {questions : List Question}
    (hq : questions.Nodup) (count : Int) (numTopics : Nat) :
    ∀ (ts : List Nat), ts.Nodup → ∀ i : Nat,
      (distribute_loop r questions count numTopics ts i).Nodup := by
  intro ts
  induction ts with
  | nil => intro _ i; simp [distribute_loop]
  | cons t ts' ih =>
    intro hts i
    rw [distribute_loop]
    have hts' := List.nodup_cons.mp hts
    refine List.Nodup.append ?_ (ih hts'.2 (i + 1)) ?_
    · exact pyTake_nodup ((topic_randomized_perm hr questions t).symm.nodup
        (topic_group_nodup hq t)) _
    · intro x hx hx'
      have h1 : x.topic_id = t :=
        (mem_topic_group.mp ((topic_randomized_perm hr questions t).subset
          (pyTake_subset _ _ hx))).2
      obtain ⟨u, hu, _, h2⟩ := distribute_loop_mem hr questions count numTopics ts' (i + 1) x hx'
      exact hts'.1 (h1 ▸ h2 ▸ hu)

theorem selected_per_topic_subset {r : RandSrc} (hr : r.Wf) (questions : List Question)
    (count : Int) : selected_per_topic r questions count ⊆ questions :=
  distribute_loop_subset hr questions count _ _ 0

theorem selected_per_topic_nodup {r : RandSrc} (hr : r.Wf) {questions : List Question}
    (hq : questions.Nodup) (count : Int) :
    (selected_per_topic r questions count).Nodup :=
  distribute_loop_nodup hr hq count _ _ (topic_ids_list_nodup questions) 0

/-! ## Facts about the top-up step -/

theorem top_up_spec {r : RandSrc} (hr : r.Wf) {P S : List Question} (hP : P.Nodup)
    (hS : S.Nodup) (hsub : S ⊆ P) {N : Nat} (hNP : N ≤ P.length) :
    N ≤ (top_up r P (N : Int) S).length ∧ (top_up r P (N : Int) S).Nodup ∧
      top_up r P (N : Int) S ⊆ P := by
  by_cases hcase : ((S.length : Int) < (N : Int))
  case neg =>
    simp only [top_up, if_neg hcase]
    refine ⟨?_, hS, hsub⟩
    omega
  case pos =>
    simp only [top_up, if_pos hcase]
    set AR := P.filter (fun q => decide (q ∉ S)) with hARdef
    have hARnodup : AR.Nodup := hP.filter _
    have hARsub : AR ⊆ P := fun x hx => (List.mem_filter.mp hx).1
    have hdisjAR : ∀ x ∈ AR, x ∉ S := by
      intro x hx
      simpa using (List.mem_filter.mp hx).2
    have hARlen : P.length ≤ AR.length + S.length := by
      have h1 := List.length_eq_length_filter_add (l := P) (fun q => decide (q ∈ S))
      have h2 : P.filter (fun x => !decide (x ∈ S)) = AR := by
        apply List.filter_congr
        intro x _
        rw [decide_not]
      rw [h2] at h1
      have h3 : (P.filter (fun q => decide (q ∈ S))).length ≤ S.length :=
        ((hP.filter _).subperm
          (fun x hx => by simpa using (List.mem_filter.mp hx).2)).length_le
      omega
    have key : ∀ added : List Question, added.length = N - S.length → added.Nodup →
        added ⊆ AR →
        N ≤ (S ++ added).length ∧ (S ++ added).Nodup ∧ S ++ added ⊆ P := by
      intro added hlen hnodup haddsub
      refine ⟨by simp [hlen]; omega, ?_, ?_⟩
      · refine hS.append hnodup ?_
        intro a haS haAdd
        exact hdisjAR a (haddsub haAdd) haS
      · intro x hx
        rcases List.mem_append.mp hx with hx | hx
        · exact hsub hx
        · exact hARsub (haddsub hx)
    split
    · -- enhanced randomization path through weighted_random_selection
      apply key
      · rw [weighted_random_selection_length hr]
        omega
      · exact weighted_random_selection_nodup hr hARnodup _
      · exact weighted_random_selection_subset hr _ _
    · -- shuffle-sort-prefix path
      have hperm : ((r.shuffle AR).mergeSort timesAskedLe).Perm AR :=
        (List.mergeSort_perm _ _).trans (hr.shuffle_perm _)
      apply key
      · rw [pyTake_length_of_nonneg _ (by omega), hperm.length_eq]
        omega
      · exact pyTake_nodup (hperm.symm.nodup hARnodup) _
      · exact fun x hx => hperm.subset (pyTake_subset _ _ hx)

/-- When the per-topic distribution already produced at least `count`
questions, the top-up step changes nothing. -/
theorem top_up_eq_self {r : RandSrc} {P S : List Question} {count : Int}
    (h : ¬ ((S.length : Int) < count)) : top_up r P count S = S := by
  simp only [top_up, if_neg h]

/-! ## Claim C1: sampling N from a larger pool -/

/-- C1.  For every duplicate-free pool `P` (distinct ORM rows) and every
count `N` with `0 < N ≤ |P|`, `smart_question_sampling` returns exactly `N`
questions, all drawn from `P`, with no question appearing more than once,
for every well-formed randomness source. -/
theorem smart_question_sampling_exact_count (r : RandSrc) (hr : r.Wf)
    (P : List Question) (hP : P.Nodup) (N : Nat) (hN : 0 < N)
    (hNP : N ≤ P.length) :
    (smart_question_sampling r P (N : Int)).length = N ∧
    smart_question_sampling r P (N : Int) ⊆ P ∧
    (smart_question_sampling r P (N : Int)).Nodup := by
  unfold smart_question_sampling
  by_cases hemp : P.isEmpty = true
  · rw [List.isEmpty_iff] at hemp
    subst hemp
    simp at hNP
    omega
  · rw [if_neg hemp]
    by_cases hble : ((P.length : Int) ≤ (N : Int))
    · rw [if_pos hble]
      have hlen : P.length = N := by omega
      exact ⟨hlen, fun x hx => hx, hP⟩
    · rw [if_neg hble]
      have hNP' : N < P.length := by omega
      have hS0n := selected_per_topic_nodup hr hP (N : Int)
      have hS0s := selected_per_topic_subset hr P (N : Int)
      obtain ⟨hTUlen, hTUnodup, hTUsub⟩ := top_up_spec hr hP hS0n hS0s hNP'.le
      have hshuf := hr.shuffle_perm (top_up r P (N : Int) (selected_per_topic r P (N : Int)))
      refine ⟨?_, ?_, ?_⟩
      · rw [pyTake_length_of_nonneg _ (Int.natCast_nonneg N), hshuf.length_eq]
        omega
      · intro x hx
        exact hTUsub (hshuf.subset (pyTake_subset _ _ hx))
      · exact pyTake_nodup (hshuf.symm.nodup hTUnodup) _

/-- Witness for C1: a pool of 10 distinct questions over two topics,
sampling 4 with the identity randomness source. -/
theorem smart_question_sampling_exact_count_witness :
    ([⟨1, 1, 0⟩, ⟨2, 1, 0⟩, ⟨3, 1, 0⟩, ⟨4, 1, 0⟩, ⟨5, 1, 0⟩,
      ⟨6, 2, 0⟩, ⟨7, 2, 0⟩, ⟨8, 2, 0⟩, ⟨9, 2, 0⟩, ⟨10, 2, 0⟩] : List Question).Nodup ∧
    (smart_question_sampling idRand
        [⟨1, 1, 0⟩, ⟨2, 1, 0⟩, ⟨3, 1, 0⟩, ⟨4, 1, 0⟩, ⟨5, 1, 0⟩,
         ⟨6, 2, 0⟩, ⟨7, 2, 0⟩, ⟨8, 2, 0⟩, ⟨9, 2, 0⟩, ⟨10, 2, 0⟩] (4 : Nat)).length = 4 ∧
    smart_question_sampling idRand
        [⟨1, 1, 0⟩, ⟨2, 1, 0⟩, ⟨3, 1, 0⟩, ⟨4, 1, 0⟩, ⟨5, 1, 0⟩,
         ⟨6, 2, 0⟩, ⟨7, 2, 0⟩, ⟨8, 2, 0⟩, ⟨9, 2, 0⟩, ⟨10, 2, 0⟩] (4 : Nat)
      ⊆ [⟨1, 1, 0⟩, ⟨2, 1, 0⟩, ⟨3, 1, 0⟩, ⟨4, 1, 0⟩, ⟨5, 1, 0⟩,
         ⟨6, 2, 0⟩, ⟨7, 2, 0⟩, ⟨8, 2, 0⟩, ⟨9, 2, 0⟩, ⟨10, 2, 0⟩] ∧
    (smart_question_sampling idRand
        [⟨1, 1, 0⟩, ⟨2, 1, 0⟩, ⟨3, 1, 0⟩, ⟨4, 1, 0⟩, ⟨5, 1, 0⟩,
         ⟨6, 2, 0⟩, ⟨7, 2, 0⟩, ⟨8, 2, 0⟩, ⟨9, 2, 0⟩, ⟨10, 2, 0⟩] (4 : Nat)).Nodup := by
  refine ⟨by decide, ?_⟩
  exact smart_question_sampling_exact_count idRand idRand_wf _ (by decide) 4 (by decide)
    (by decide)

/-! ## Claim C3: sampling from a pool no larger than the request -/

/-- C3 (amended).  When `|P| ≤ N` the function returns the pool itself,
exactly once each — but in the pool's original order, for every randomness
source: the `len(questions) <= count` branch returns `questions` without
shuffling (main.py 2460-2463). -/
theorem smart_question_sampling_small_pool (r : RandSrc) (P : List Question)
    (N : Int) (h : (P.length : Int) ≤ N) :
    smart_question_sampling r P N = P := by
  unfold smart_question_sampling
  by_cases hemp : P.isEmpty = true
  · rw [List.isEmpty_iff] at hemp
    subst hemp
    simp
  · rw [if_neg hemp, if_pos h]

/-- Witness for C3 (amended): three questions, request five. -/
theorem smart_question_sampling_small_pool_witness :
    (([⟨1, 1, 0⟩, ⟨2, 1, 0⟩, ⟨3, 1, 0⟩] : List Question).length : Int) ≤ 5 ∧
    smart_question_sampling idRand [⟨1, 1, 0⟩, ⟨2, 1, 0⟩, ⟨3, 1, 0⟩] 5
      = [⟨1, 1, 0⟩, ⟨2, 1, 0⟩, ⟨3, 1, 0⟩] :=
  ⟨by decide, smart_question_sampling_small_pool idRand _ 5 (by decide)⟩

/-- Counterexample to C3 as stated: on a pool of three questions with
request five, the returned ordering is one fixed list — the pool itself —
for **every** randomness source; repeated calls can never produce a second
ordering. -/
theorem smart_question_sampling_small_pool_not_randomized :
    (fun r : RandSrc =>
        smart_question_sampling r [⟨1, 1, 0⟩, ⟨2, 1, 0⟩, ⟨3, 1, 0⟩] 5)
      = fun _ => [⟨1, 1, 0⟩, ⟨2, 1, 0⟩, ⟨3, 1, 0⟩] := rfl

/-! ## Claim C9: edge cases of the sampler -/

/-- C9 (amended).  The sampler returns the empty list on an empty pool and
on a requested count of zero, for every randomness source and pool; the
model is a total function, so no exception can propagate on these paths. -/
theorem smart_question_sampling_edge_cases (r : RandSrc) (P : List Question)
    (N : Int) :
    smart_question_sampling r [] N = [] ∧ smart_question_sampling r P 0 = [] := by
  constructor
  · simp [smart_question_sampling]
  · unfold smart_question_sampling
    by_cases hemp : P.isEmpty = true
    · rw [if_pos hemp]
    · rw [if_neg hemp]
      have hlen : ¬ ((P.length : Int) ≤ 0) := by
        rw [List.isEmpty_iff] at hemp
        have : P.length ≠ 0 := fun h0 => hemp (List.length_eq_zero.mp h0)
        omega
      rw [if_neg hlen]
      exact pyTake_zero _

/-- Counterexample to C9 as stated: for the negative count `N = -1` on a
pool of three same-topic questions, Python's negative slice semantics
(`list[:-1]`) make the function return one question, not the empty list. -/
theorem smart_question_sampling_negative_count_not_empty :
    smart_question_sampling idRand [⟨1, 1, 0⟩, ⟨2, 1, 0⟩, ⟨3, 1, 0⟩] (-1)
      = [⟨1, 1, 0⟩] := by decide

/-! ## Claim C2: tournament answer scoring -/

/-- C2.  A correct tournament answer earns exactly
`100 + max(0, 50 - 2 * time_taken)` points (so `150` at `time_taken = 0`);
an incorrect one earns exactly `0`. -/
theorem tournament_scoring_formula (selected correct : Nat) (time_taken : Int) :
    (selected = correct →
      tournament_answer_points selected correct time_taken
        = 100 + max 0 (50 - 2 * time_taken)) ∧
    (selected = correct → time_taken = 0 →
      tournament_answer_points selected correct time_taken = 150) ∧
    (selected ≠ correct → tournament_answer_points selected correct time_taken = 0) := by
  refine ⟨?_, ?_, ?_⟩
  · intro h
    simp only [tournament_answer_points, if_pos h]
    ring_nf
  · intro h ht
    subst ht
    simp [tournament_answer_points, if_pos h]
  · intro h
    simp [tournament_answer_points, if_neg h]

/-- Witness for C2: a correct instant answer earns 150, a correct answer
after 10 seconds earns 130, an incorrect answer earns 0. -/
theorem tournament_scoring_formula_witness :
    tournament_answer_points 2 2 0 = 150 ∧
    tournament_answer_points 2 2 10 = 100 + max 0 (50 - 2 * 10) ∧
    tournament_answer_points 1 2 0 = 0 :=
  ⟨(tournament_scoring_formula 2 2 0).2.1 rfl rfl,
   (tournament_scoring_formula 2 2 10).1 rfl,
   (tournament_scoring_formula 1 2 0).2.2 (by decide)⟩

/-! ## Claim C10: solo answer scoring -/

/-- C10.  The solo `submit_answer` path awards exactly 10 points for a
correct answer and 0 otherwise, for every value of `time_taken` — the
100-plus-speed-bonus formula of the tournament path plays no role here.
The session total increases by exactly the awarded points. -/
theorem solo_scoring_flat_ten (session : GameSessionState)
    (selected correct : Nat) (time_taken time_taken' : Int) :
    ((submit_answer session selected correct time_taken).1.points_earned
        = if selected = correct then 10 else 0) ∧
    ((submit_answer session selected correct time_taken).1.points_earned
        = (submit_answer session selected correct time_taken').1.points_earned) ∧
    ((submit_answer session selected correct time_taken).2.total_score
        = session.total_score
          + (submit_answer session selected correct time_taken).1.points_earned) := by
  refine ⟨rfl, rfl, rfl⟩

/-! ## Claim C7: question-generation cache TTL -/

/-- C7 (amended).  Every call to the cached question-generation path does
exactly one of three things: (a) it hits a cache entry strictly younger
than `CACHE_DURATION` and returns the cached value with the cache
unchanged; (b) the database path succeeds and the freshly computed result
is returned and stored under the key paired with the current time; or
(c) a fallback path fires and the sample questions are returned with the
cache unchanged — not stored.  Since (a) is the only case in which the
returned value is read from the cache, a cache entry whose age has reached
the TTL is never served. -/
theorem generate_questions_cache_ttl {K V : Type} [DecidableEq K]
    (question_cache : List (K × V × Int)) (cache_key : K) (current_time : Int)
    (compute : Option V) (sample_questions : V) :
    (∃ cache_time,
        cacheLookup question_cache cache_key
          = some ((generate_questions_cached question_cache cache_key current_time
              compute sample_questions).1, cache_time) ∧
        current_time - cache_time < CACHE_DURATION ∧
        (generate_questions_cached question_cache cache_key current_time compute
          sample_questions).2 = question_cache) ∨
    (∃ result, compute = some result ∧
      (generate_questions_cached question_cache cache_key current_time compute
          sample_questions).1 = result ∧
      cacheLookup
        (generate_questions_cached question_cache cache_key current_time compute
          sample_questions).2 cache_key = some (result, current_time)) ∨
    (compute = none ∧
      (generate_questions_cached question_cache cache_key current_time compute
          sample_questions).1 = sample_questions ∧
      (generate_questions_cached question_cache cache_key current_time compute
          sample_questions).2 = question_cache) := by
  unfold generate_questions_cached
  cases hl : cacheLookup question_cache cache_key with
  | none =>
    cases hc : compute with
    | none => exact .inr (.inr ⟨rfl, rfl, rfl⟩)
    | some result =>
      refine .inr (.inl ⟨result, rfl, rfl, ?_⟩)
      simp [cacheLookup]
  | some vt =>
    obtain ⟨v, t⟩ := vt
    by_cases hfresh : current_time - t < CACHE_DURATION
    · left
      exact ⟨t, by simp [hl, hfresh], hfresh, by simp [hfresh]⟩
    · cases hc : compute with
      | none => exact .inr (.inr ⟨rfl, by simp [hfresh], by simp [hfresh]⟩)
      | some result =>
        refine .inr (.inl ⟨result, rfl, by simp [hfresh], ?_⟩)
        simp [hfresh, cacheLookup]

/-- Counterexample to C7 as stated: a request whose cache key misses and
whose database path falls back to sample questions (here: no matching
subject/topics, main.py 2323-2325) returns the recomputed sample result
but stores nothing — the key is still absent from the cache afterwards,
so the "otherwise the result is ... stored paired with the current time"
clause fails. -/
theorem generate_questions_fallback_not_stored :
    (generate_questions_cached ([] : List (Nat × Nat × Int)) 1 50 none 7).1 = 7 ∧
    cacheLookup (generate_questions_cached ([] : List (Nat × Nat × Int)) 1 50
      none 7).2 1 = none := by
  exact ⟨rfl, rfl⟩

/-! ## Arithmetic of the per-topic slot allocation -/

/-- For a natural request `N` and `K > 0` topics, the integer slot count of
iteration `i` is the natural `N / K + 1` for the first `N % K` iterations
and `N / K` afterwards. -/
theorem topic_count_natCast (N K i : Nat) (hK : 0 < K) :
    topic_count (N : Int) K i = ((N / K + if i < N % K then 1 else 0 : Nat) : Int) := by
  unfold topic_count questions_per_topic remaining_questions
  rw [Int.fdiv_eq_ediv _ (by positivity), Int.fmod_eq_emod _ (by positivity)]
  rw [← Int.natCast_div, ← Int.natCast_mod]
  have : ((i : Int) < ((N % K : Nat) : Int)) ↔ i < N % K := by exact_mod_cast Iff.rfl
  by_cases h : i < N % K
  · rw [if_pos (this.mpr h), if_pos h]
    push_cast
    ring
  · rw [if_neg (fun hc => h (this.mp hc)), if_neg h]
    push_cast
    ring

theorem sum_range_indicator (rem : Nat) :
    ∀ K : Nat, ((List.range K).map (fun j => if j < rem then 1 else 0)).sum = min K rem := by
  intro K
  induction K with
  | zero => simp
  | succ n ih =>
    rw [List.range_succ, List.map_append, List.sum_append, ih]
    simp only [List.map_cons, List.map_nil, List.sum_cons, List.sum_nil]
    by_cases h : n < rem
    · rw [if_pos h]; omega
    · rw [if_neg h]; omega

/-- The slot allocation distributes exactly `N` slots over `K > 0` topics. -/
theorem sum_topic_count (N K : Nat) (hK : 0 < K) :
    ((List.range K).map (fun j => (topic_count (N : Int) K j).toNat)).sum = N := by
  have h1 : ∀ j ∈ List.range K,
      (topic_count (N : Int) K j).toNat = N / K + (if j < N % K then 1 else 0) := by
    intro j _
    rw [topic_count_natCast N K j hK]
    exact Int.toNat_natCast _
  rw [List.map_congr_left h1]
  have h2 : ((List.range K).map (fun j => N / K + if j < N % K then 1 else 0)).sum
      = ((List.range K).map (fun _ => N / K)).sum
        + ((List.range K).map (fun j => if j < N % K then 1 else 0)).sum :=
    List.sum_map_add
  rw [h2, sum_range_indicator]
  have h3 : ((List.range K).map (fun _ => N / K)).sum = K * (N / K) := by
    rw [List.map_const', List.sum_replicate, List.length_range, smul_eq_mul]
  rw [h3]
  have h4 : N % K < K := Nat.mod_lt _ hK
  have h5 := Nat.div_add_mod N K
  omega

/-! ## The distribution loop on an evenly populated pool -/

/-- On a pool whose listed topics each hold `m ≥` every slot allocation,
each topic contributes exactly its allocated slot count, so the loop yields
the allocation sum. -/
theorem distribute_loop_length_even {r : RandSrc} (hr : r.Wf)
    {questions : List Question} {count : Int} {K m : Nat}
    (hc : 0 ≤ count)
    (halloc : ∀ j : Nat, topic_count count K j ≤ (m : Int)) :
    ∀ (ts : List Nat), (∀ t ∈ ts, (topic_group questions t).length = m) → ∀ i : Nat,
      (distribute_loop r questions count K ts i).length
        = ((List.range ts.length).map (fun j => (topic_count count K (i + j)).toNat)).sum := by
  intro ts
  induction ts with
  | nil => intro _ i; simp [distribute_loop]
  | cons t ts' ih =>
    intro hm i
    rw [distribute_loop, List.length_append]
    have hA0 : 0 ≤ topic_count count K i := by
      unfold topic_count questions_per_topic remaining_questions
      have h1 : 0 ≤ count.fdiv K := Int.fdiv_nonneg hc (by positivity)
      split <;> omega
    have hlen : (topic_randomized r questions t).length = m := by
      rw [topic_randomized_length hr]
      exact hm t (List.mem_cons_self t ts')
    have hhead : (pyTake (topic_randomized r questions t)
        (min (topic_count count K i) ((topic_randomized r questions t).length : Int))).length
          = (topic_count count K i).toNat := by
      rw [pyTake_length_of_nonneg _ (le_min hA0 (by positivity)), hlen]
      have := halloc i
      omega
    rw [hhead, ih (fun u hu => hm u (List.mem_cons_of_mem t hu)) (i + 1)]
    rw [List.length_cons, List.range_succ_eq_map, List.map_cons, List.sum_cons,
      List.map_map]
    have : ((List.range ts'.length).map
          (fun j => (topic_count count K (i + 1 + j)).toNat))
        = ((List.range ts'.length).map
          ((fun j => (topic_count count K (i + j)).toNat) ∘ Nat.succ)) := by
      apply List.map_congr_left
      intro j _
      simp only [Function.comp_apply]
      have : i + 1 + j = i + (j + 1) := by omega
      rw [this]
    rw [this]
    simp only [Nat.add_zero]

/-- Within the loop output, the questions of the `j`-th listed topic are
exactly the `j`-th slice, so their number is the `j`-th allocation. -/
theorem distribute_loop_filter_even {r : RandSrc} (hr : r.Wf)
    {questions : List Question} {count : Int} {K m : Nat}
    (hc : 0 ≤ count)
    (halloc : ∀ j : Nat, topic_count count K j ≤ (m : Int)) :
    ∀ (ts : List Nat), ts.Nodup →
      (∀ t ∈ ts, (topic_group questions t).length = m) →
      ∀ (i j : Nat) (hj : j < ts.length),
        ((distribute_loop r questions count K ts i).filter
            (fun x => x.topic_id == ts.get ⟨j, hj⟩)).length
          = (topic_count count K (i + j)).toNat := by
  intro ts
  induction ts with
  | nil => intro _ _ i j hj; simp at hj
  | cons t ts' ih =>
    intro hts hm i j hj
    have hts' := List.nodup_cons.mp hts
    rw [distribute_loop, List.filter_append, List.length_append]
    have hA0 : 0 ≤ topic_count count K i := by
      unfold topic_count questions_per_topic remaining_questions
      have h1 : 0 ≤ count.fdiv K := Int.fdiv_nonneg hc (by positivity)
      split <;> omega
    have hlen : (topic_randomized r questions t).length = m := by
      rw [topic_randomized_length hr]
      exact hm t (List.mem_cons_self t ts')
    have hmem_head : ∀ x ∈ pyTake (topic_randomized r questions t)
        (min (topic_count count K i) ((topic_randomized r questions t).length : Int)),
        x.topic_id = t := by
      intro x hx
      exact (mem_topic_group.mp
        ((topic_randomized_perm hr questions t).subset (pyTake_subset _ _ hx))).2
    match j with
    | 0 =>
      simp only [List.get]
      have hhead : (pyTake (topic_randomized r questions t)
          (min (topic_count count K i)
            ((topic_randomized r questions t).length : Int))).filter
            (fun x => x.topic_id == t)
          = pyTake (topic_randomized r questions t)
            (min (topic_count count K i)
              ((topic_randomized r questions t).length : Int)) := by
        rw [List.filter_eq_self]
        intro x hx
        simp [hmem_head x hx]
      have htail : (distribute_loop r questions count K ts' (i + 1)).filter
          (fun x => x.topic_id == t) = [] := by
        rw [List.filter_eq_nil_iff]
        intro x hx
        obtain ⟨u, hu, _, hxu⟩ := distribute_loop_mem hr questions count K ts' (i + 1) x hx
        simp only [beq_iff_eq, hxu]
        intro hut
        exact hts'.1 (hut ▸ hu)
      rw [hhead, htail]
      rw [pyTake_length_of_nonneg _ (le_min hA0 (by positivity)), hlen]
      simp only [List.length_nil, Nat.add_zero]
      have := halloc i
      omega
    | j' + 1 =>
      simp only [List.length_cons] at hj
      have hj' : j' < ts'.length := by omega
      have hget : (t :: ts').get ⟨j' + 1, by simpa using hj⟩ = ts'.get ⟨j', hj'⟩ := rfl
      rw [hget]
      have htmem : ts'.get ⟨j', hj'⟩ ∈ ts' := ts'.get_mem _ _
      have hhead : (pyTake (topic_randomized r questions t)
          (min (topic_count count K i)
            ((topic_randomized r questions t).length : Int))).filter
            (fun x => x.topic_id == ts'.get ⟨j', hj'⟩) = [] := by
        rw [List.filter_eq_nil_iff]
        intro x hx
        rw [hmem_head x hx]
        simp only [beq_iff_eq]
        intro hteq
        exact hts'.1 (hteq ▸ htmem)
      rw [hhead]
      simp only [List.length_nil, Nat.zero_add]
      rw [ih hts'.2 (fun u hu => hm u (List.mem_cons_of_mem t hu)) (i + 1) j' hj']
      have : i + 1 + j' = i + (j' + 1) := by omega
      rw [this]

/-! ## The topic groups partition the pool -/

theorem sum_topic_group_length :
    ∀ (ks : List Nat) (qs : List Question), ks.Nodup →
      (∀ q ∈ qs, q.topic_id ∈ ks) →
      (ks.map (fun t => (topic_group qs t).length)).sum = qs.length := by
  intro ks
  induction ks with
  | nil =>
    intro qs _ hcov
    have : qs = [] := List.eq_nil_iff_forall_not_mem.mpr
      (fun q hq => by simpa using hcov q hq)
    simp [this]
  | cons k ks' ih =>
    intro qs hks hcov
    have hks' := List.nodup_cons.mp hks
    have hsplit : qs.length = (topic_group qs k).length
        + (qs.filter (fun q => q.topic_id != k)).length := by
      have h := List.length_eq_length_filter_add (l := qs) (fun q => q.topic_id == k)
      have heq : qs.filter (fun x => !(x.topic_id == k))
          = qs.filter (fun q => q.topic_id != k) := by
        apply List.filter_congr
        intro x _
        simp [bne]
      rw [heq] at h
      exact h
    have hgroups : ∀ t ∈ ks',
        topic_group (qs.filter (fun q => q.topic_id != k)) t = topic_group qs t := by
      intro t ht
      have htk : t ≠ k := fun h => hks'.1 (h ▸ ht)
      unfold topic_group
      rw [List.filter_filter]
      apply List.filter_congr
      intro x _
      by_cases hx : x.topic_id = t
      · simp [hx, htk]
      · simp [hx]
    have hcov' : ∀ q ∈ qs.filter (fun q => q.topic_id != k), q.topic_id ∈ ks' := by
      intro q hq
      obtain ⟨hq1, hq2⟩ := List.mem_filter.mp hq
      have := hcov q hq1
      simp only [bne_iff_ne, ne_eq] at hq2
      rcases List.mem_cons.mp this with h | h
      · exact absurd h hq2
      · exact h
    have hmap : ks'.map (fun t => (topic_group qs t).length)
        = ks'.map (fun t =>
            (topic_group (qs.filter (fun q => q.topic_id != k)) t).length) := by
      apply List.map_congr_left
      intro t ht
      rw [hgroups t ht]
    rw [List.map_cons, List.sum_cons, hmap, ih _ hks'.2 hcov', hsplit]

/-! ## Claim C4: even distribution across topics -/

/-- C4.  On a pool whose listed topics each hold the same number `m` of
questions, with `0 < N < |P|`, the sample drawn by `smart_question_sampling`
contains from the topic at iteration index `j` exactly `N div K` questions
plus one extra for the first `N mod K` topics (`K` the number of topics);
hence every topic's contribution lies between `N div K` and `N div K + 1`
and differs from the exact rational `N / K` by at most 1. -/
theorem smart_question_sampling_even_distribution (r : RandSrc) (hr : r.Wf)
    (P : List Question) (hP : P.Nodup) (N m : Nat) (hN : 0 < N)
    (hNP : N < P.length)
    (hm : ∀ t ∈ topic_ids_list P, (topic_group P t).length = m) :
    ∀ j (hj : j < (topic_ids_list P).length),
      ((smart_question_sampling r P (N : Int)).filter
          (fun x => x.topic_id == (topic_ids_list P).get ⟨j, hj⟩)).length
        = N / (topic_ids_list P).length
          + (if j < N % (topic_ids_list P).length then 1 else 0) ∧
      N / (topic_ids_list P).length
        ≤ ((smart_question_sampling r P (N : Int)).filter
            (fun x => x.topic_id == (topic_ids_list P).get ⟨j, hj⟩)).length ∧
      ((smart_question_sampling r P (N : Int)).filter
          (fun x => x.topic_id == (topic_ids_list P).get ⟨j, hj⟩)).length
        ≤ N / (topic_ids_list P).length + 1 ∧
      |(((smart_question_sampling r P (N : Int)).filter
            (fun x => x.topic_id == (topic_ids_list P).get ⟨j, hj⟩)).length : ℚ)
          - (N : ℚ) / ((topic_ids_list P).length : ℚ)| ≤ 1 := by
  intro j hj
  have hK : 0 < (topic_ids_list P).length := by omega
  -- the pool splits into the listed topics' groups of m questions each
  have hpart : (topic_ids_list P).length * m = P.length := by
    have h1 := sum_topic_group_length (topic_ids_list P) P (topic_ids_list_nodup P)
      (fun q hq => topic_id_mem_topic_ids_list hq)
    have h2 : (topic_ids_list P).map (fun t => (topic_group P t).length)
        = (topic_ids_list P).map (fun _ => m) := List.map_congr_left hm
    rw [h2, List.map_const', List.sum_replicate, smul_eq_mul] at h1
    exact h1
  have hmdiv : N / (topic_ids_list P).length < m := by
    have h1 : (topic_ids_list P).length * (N / (topic_ids_list P).length) ≤ N := by
      have := Nat.div_add_mod N (topic_ids_list P).length
      omega
    have h2 : (topic_ids_list P).length * (N / (topic_ids_list P).length)
        < (topic_ids_list P).length * m := by omega
    exact Nat.lt_of_mul_lt_mul_left h2
  have halloc : ∀ i : Nat,
      topic_count (N : Int) (topic_ids_list P).length i ≤ (m : Int) := by
    intro i
    rw [topic_count_natCast N _ i hK]
    have : N / (topic_ids_list P).length
        + (if i < N % (topic_ids_list P).length then 1 else 0) ≤ m := by
      split <;> omega
    exact_mod_cast this
  -- the distribution loop fills exactly N slots, so no top-up happens
  have hS0len : (selected_per_topic r P (N : Int)).length = N := by
    rw [selected_per_topic,
      distribute_loop_length_even hr (by positivity) halloc _ hm 0]
    have : ((List.range (topic_ids_list P).length).map
          (fun j => (topic_count (N : Int) (topic_ids_list P).length (0 + j)).toNat))
        = ((List.range (topic_ids_list P).length).map
          (fun j => (topic_count (N : Int) (topic_ids_list P).length j).toNat)) := by
      apply List.map_congr_left
      intro x _
      rw [Nat.zero_add]
    rw [this, sum_topic_count N _ hK]
  have hTU : top_up r P (N : Int) (selected_per_topic r P (N : Int))
      = selected_per_topic r P (N : Int) := by
    apply top_up_eq_self
    rw [hS0len]
    omega
  -- the final shuffle-and-truncate is a permutation of the distributed list
  have hfinal : (smart_question_sampling r P (N : Int)).Perm
      (selected_per_topic r P (N : Int)) := by
    unfold smart_question_sampling
    have hemp : ¬ (P.isEmpty = true) := by
      rw [List.isEmpty_iff]
      intro h
      rw [h] at hNP
      simp at hNP
    rw [if_neg hemp, if_neg (by omega : ¬ ((P.length : Int) ≤ (N : Int))), hTU]
    have hshuf := hr.shuffle_perm (selected_per_topic r P (N : Int))
    have hlen : (r.shuffle (selected_per_topic r P (N : Int))).length = N := by
      rw [hshuf.length_eq, hS0len]
    have heq : pyTake (r.shuffle (selected_per_topic r P (N : Int))) (N : Int)
        = r.shuffle (selected_per_topic r P (N : Int)) := by
      unfold pyTake
      rw [if_pos (by positivity)]
      apply List.take_of_length_le
      rw [hlen]
      omega
    rw [heq]
    exact hshuf
  -- count the questions of the j-th listed topic in the sample
  have hcount : ((smart_question_sampling r P (N : Int)).filter
      (fun x => x.topic_id == (topic_ids_list P).get ⟨j, hj⟩)).length
        = N / (topic_ids_list P).length
          + (if j < N % (topic_ids_list P).length then 1 else 0) := by
    rw [(hfinal.filter _).length_eq]
    rw [selected_per_topic,
      distribute_loop_filter_even hr (by positivity) halloc _
        (topic_ids_list_nodup P) hm 0 j hj]
    rw [Nat.zero_add, topic_count_natCast N _ j hK, Int.toNat_natCast]
  refine ⟨hcount, by rw [hcount]; split <;> omega,
    by rw [hcount]; split <;> omega, ?_⟩
  -- the rational bound
  have hKQ : (0 : ℚ) < ((topic_ids_list P).length : ℚ) := by positivity
  have hlow : ((N / (topic_ids_list P).length : Nat) : ℚ)
      ≤ (N : ℚ) / ((topic_ids_list P).length : ℚ) := by
    rw [le_div_iff₀ hKQ]
    have : (N / (topic_ids_list P).length) * (topic_ids_list P).length ≤ N :=
      Nat.div_mul_le_self N _
    exact_mod_cast this
  have hhigh : (N : ℚ) / ((topic_ids_list P).length : ℚ)
      < ((N / (topic_ids_list P).length : Nat) : ℚ) + 1 := by
    rw [div_lt_iff₀ hKQ]
    have h4 : N % (topic_ids_list P).length < (topic_ids_list P).length :=
      Nat.mod_lt _ hK
    have h5 := Nat.div_add_mod N (topic_ids_list P).length
    have h6 : N < (N / (topic_ids_list P).length + 1) * (topic_ids_list P).length := by
      have h7 : (N / (topic_ids_list P).length + 1) * (topic_ids_list P).length
          = (topic_ids_list P).length * (N / (topic_ids_list P).length)
            + (topic_ids_list P).length := by ring
      omega
    calc (N : ℚ) < (((N / (topic_ids_list P).length + 1)
          * (topic_ids_list P).length : Nat) : ℚ) := by exact_mod_cast h6
      _ = (((N / (topic_ids_list P).length : Nat) : ℚ) + 1)
          * ((topic_ids_list P).length : ℚ) := by push_cast; ring
  have hcb : ((N / (topic_ids_list P).length : Nat) : ℚ)
      ≤ (((smart_question_sampling r P (N : Int)).filter
          (fun x => x.topic_id == (topic_ids_list P).get ⟨j, hj⟩)).length : ℚ) := by
    have h8 : N / (topic_ids_list P).length
        ≤ ((smart_question_sampling r P (N : Int)).filter
          (fun x => x.topic_id == (topic_ids_list P).get ⟨j, hj⟩)).length := by
      rw [hcount]; split <;> omega
    exact_mod_cast h8
  have hcb1 : (((smart_question_sampling r P (N : Int)).filter
        (fun x => x.topic_id == (topic_ids_list P).get ⟨j, hj⟩)).length : ℚ)
      ≤ ((N / (topic_ids_list P).length : Nat) : ℚ) + 1 := by
    have h9 : ((smart_question_sampling r P (N : Int)).filter
        (fun x => x.topic_id == (topic_ids_list P).get ⟨j, hj⟩)).length
          ≤ N / (topic_ids_list P).length + 1 := by
      rw [hcount]; split <;> omega
    calc (((smart_question_sampling r P (N : Int)).filter
          (fun x => x.topic_id == (topic_ids_list P).get ⟨j, hj⟩)).length : ℚ)
        ≤ ((N / (topic_ids_list P).length + 1 : Nat) : ℚ) := by exact_mod_cast h9
      _ = ((N / (topic_ids_list P).length : Nat) : ℚ) + 1 := by push_cast; ring
  rw [abs_le]
  constructor <;> linarith

/-- Witness for C4: ten questions over two topics of five each, sampling
four with the identity randomness source: the first topic contributes
exactly `4 / 2 = 2` questions. -/
theorem smart_question_sampling_even_distribution_witness :
    ([⟨1, 1, 0⟩, ⟨2, 1, 0⟩, ⟨3, 1, 0⟩, ⟨4, 1, 0⟩, ⟨5, 1, 0⟩,
      ⟨6, 2, 0⟩, ⟨7, 2, 0⟩, ⟨8, 2, 0⟩, ⟨9, 2, 0⟩, ⟨10, 2, 0⟩] : List Question).Nodup ∧
    ((smart_question_sampling idRand
        [⟨1, 1, 0⟩, ⟨2, 1, 0⟩, ⟨3, 1, 0⟩, ⟨4, 1, 0⟩, ⟨5, 1, 0⟩,
         ⟨6, 2, 0⟩, ⟨7, 2, 0⟩, ⟨8, 2, 0⟩, ⟨9, 2, 0⟩, ⟨10, 2, 0⟩] (4 : Nat)).filter
        (fun x => x.topic_id == (topic_ids_list
          [⟨1, 1, 0⟩, ⟨2, 1, 0⟩, ⟨3, 1, 0⟩, ⟨4, 1, 0⟩, ⟨5, 1, 0⟩,
           ⟨6, 2, 0⟩, ⟨7, 2, 0⟩, ⟨8, 2, 0⟩, ⟨9, 2, 0⟩, ⟨10, 2, 0⟩]).get
            ⟨0, by decide⟩)).length
      = 4 / (topic_ids_list
          [⟨1, 1, 0⟩, ⟨2, 1, 0⟩, ⟨3, 1, 0⟩, ⟨4, 1, 0⟩, ⟨5, 1, 0⟩,
           ⟨6, 2, 0⟩, ⟨7, 2, 0⟩, ⟨8, 2, 0⟩, ⟨9, 2, 0⟩, ⟨10, 2, 0⟩]).length
        + (if 0 < 4 % (topic_ids_list
          [⟨1, 1, 0⟩, ⟨2, 1, 0⟩, ⟨3, 1, 0⟩, ⟨4, 1, 0⟩, ⟨5, 1, 0⟩,
           ⟨6, 2, 0⟩, ⟨7, 2, 0⟩, ⟨8, 2, 0⟩, ⟨9, 2, 0⟩, ⟨10, 2, 0⟩]).length
          then 1 else 0) := by
  refine ⟨by decide, ?_⟩
  exact (smart_question_sampling_even_distribution idRand idRand_wf _ (by decide) 4 5
    (by decide) (by decide) (by decide) 0 (by decide)).1

/-! ## Ordering facts for the two ranking comparisons -/

theorem leaderboard_le_trans (a b c : TournamentParticipantRec) :
    leaderboard_le a b = true → leaderboard_le b c = true →
      leaderboard_le a c = true := by
  simp only [leaderboard_le, decide_eq_true_eq]
  intro hab hbc
  rcases hab with hab | ⟨hab1, hab'⟩
  · rcases hbc with hbc | ⟨hbc1, _⟩
    · exact .inl (hbc.trans hab)
    · exact .inl (hbc1 ▸ hab)
  · rcases hbc with hbc | ⟨hbc1, hbc'⟩
    · exact .inl (hab1 ▸ hbc)
    · refine .inr ⟨hab1.trans hbc1, ?_⟩
      rcases hab' with hab2 | ⟨hab3, hab4⟩
      · rcases hbc' with hbc2 | ⟨hbc3, _⟩
        · exact .inl (hbc2.trans hab2)
        · exact .inl (hbc3 ▸ hab2)
      · rcases hbc' with hbc2 | ⟨hbc3, hbc4⟩
        · exact .inl (hab3 ▸ hbc2)
        · exact .inr ⟨hab3.trans hbc3, hab4.trans hbc4⟩

theorem leaderboard_le_total (a b : TournamentParticipantRec) :
    (leaderboard_le a b || leaderboard_le b a) = true := by
  simp only [leaderboard_le, Bool.or_eq_true, decide_eq_true_eq]
  rcases lt_trichotomy a.score b.score with h | h | h
  · exact .inr (.inl h)
  · rcases lt_trichotomy a.accuracy b.accuracy with h2 | h2 | h2
    · exact .inr (.inr ⟨h.symm, .inl h2⟩)
    · rcases le_total a.time_taken b.time_taken with h3 | h3
      · exact .inl (.inr ⟨h, .inr ⟨h2, h3⟩⟩)
      · exact .inr (.inr ⟨h.symm, .inr ⟨h2.symm, h3⟩⟩)
    · exact .inl (.inr ⟨h, .inl h2⟩)
  · exact .inl (.inl h)

theorem detailed_le_trans (a b c : ParticipantResult) :
    detailed_le a b = true → detailed_le b c = true → detailed_le a c = true := by
  simp only [detailed_le, decide_eq_true_eq]
  intro hab hbc
  rcases hab with hab | ⟨hab1, hab'⟩
  · rcases hbc with hbc | ⟨hbc1, _⟩
    · exact .inl (hbc.trans hab)
    · exact .inl (hbc1 ▸ hab)
  · rcases hbc with hbc | ⟨hbc1, hbc'⟩
    · exact .inl (hab1 ▸ hbc)
    · refine .inr ⟨hab1.trans hbc1, ?_⟩
      rcases hab' with hab2 | ⟨hab3, hab4⟩
      · rcases hbc' with hbc2 | ⟨hbc3, _⟩
        · exact .inl (hbc2.trans hab2)
        · exact .inl (hbc3 ▸ hab2)
      · rcases hbc' with hbc2 | ⟨hbc3, hbc4⟩
        · exact .inl (hab3 ▸ hbc2)
        · exact .inr ⟨hab3.trans hbc3, hab4.trans hbc4⟩

theorem detailed_le_total (a b : ParticipantResult) :
    (detailed_le a b || detailed_le b a) = true := by
  simp only [detailed_le, Bool.or_eq_true, decide_eq_true_eq]
  rcases lt_trichotomy a.total_score b.total_score with h | h | h
  · exact .inr (.inl h)
  · rcases lt_trichotomy a.correct_answers b.correct_answers with h2 | h2 | h2
    · exact .inr (.inr ⟨h.symm, .inl h2⟩)
    · rcases le_total a.time_taken b.time_taken with h3 | h3
      · exact .inl (.inr ⟨h, .inr ⟨h2, h3⟩⟩)
      · exact .inr (.inr ⟨h.symm, .inr ⟨h2.symm, h3⟩⟩)
    · exact .inl (.inr ⟨h, .inl h2⟩)
  · exact .inl (.inl h)

/-- Attaching 1-based ranks by enumeration: the ranked pairs list projects
back to the underlying list, and its rank column is `1, 2, …, n`. -/
theorem rank_enum_spec {α : Type} (l : List α) :
    ((l.enum.map (fun ip => (ip.2, ip.1 + 1))).map Prod.fst = l) ∧
    ((l.enum.map (fun ip => (ip.2, ip.1 + 1))).map Prod.snd
      = List.range' 1 (l.enum.map (fun ip => (ip.2, ip.1 + 1))).length) := by
  constructor
  · rw [List.map_map]
    exact List.enum_map_snd l
  · have h1 : (l.enum.map (fun ip => (ip.2, ip.1 + 1))).map Prod.snd
        = (l.enum.map Prod.fst).map (fun i => i + 1) := by
      rw [List.map_map, List.map_map]
      rfl
    rw [h1, List.enum_map_fst, List.length_map, List.enum_length,
      List.range'_eq_map_range]
    apply List.map_congr_left
    intro x _
    omega

/-! ## Claim C5: the two tournament ranking paths -/

/-- C5.  Both ranking endpoints consider only participants with
`has_played = true` and assign rank as the 1-based position in a sorted
order: the basic leaderboard sorts its tournament's players by score
descending, accuracy descending, time ascending; the detailed-results path
sorts the recomputed totals by score descending, correct answers
descending, total time ascending.  In both outputs the rank column is
exactly `1, 2, …, n`. -/
theorem tournament_ranking_paths (T : Nat) (ps : List TournamentParticipantRec)
    (session_answers : Nat → Option (List ParticipantAnswer)) :
    (∀ pr ∈ get_tournament_leaderboard T ps,
        pr.1.has_played = true ∧ pr.1.tournament_id = T) ∧
    ((get_tournament_leaderboard T ps).map Prod.fst).Perm
        (ps.filter (fun p => p.tournament_id == T && p.has_played)) ∧
    ((get_tournament_leaderboard T ps).map Prod.fst).Pairwise
        (fun a b => leaderboard_le a b = true) ∧
    ((get_tournament_leaderboard T ps).map Prod.snd)
        = List.range' 1 (get_tournament_leaderboard T ps).length ∧
    (∀ rr ∈ get_tournament_detailed_results ps session_answers,
        ∃ p ∈ ps, p.has_played = true ∧
          (session_answers p.pid).map (participant_result p) = some rr.1) ∧
    ((get_tournament_detailed_results ps session_answers).map Prod.fst).Perm
        ((ps.filter (fun p => p.has_played)).filterMap
          (fun p => (session_answers p.pid).map (participant_result p))) ∧
    ((get_tournament_detailed_results ps session_answers).map Prod.fst).Pairwise
        (fun a b => detailed_le a b = true) ∧
    ((get_tournament_detailed_results ps session_answers).map Prod.snd)
        = List.range' 1 (get_tournament_detailed_results ps session_answers).length := by
  have hlfst := (rank_enum_spec ((ps.filter
      (fun p => p.tournament_id == T && p.has_played)).mergeSort leaderboard_le)).1
  have hlsnd := (rank_enum_spec ((ps.filter
      (fun p => p.tournament_id == T && p.has_played)).mergeSort leaderboard_le)).2
  have hdfst := (rank_enum_spec (((ps.filter (fun p => p.has_played)).filterMap
      (fun p => (session_answers p.pid).map (participant_result p))).mergeSort
        detailed_le)).1
  have hdsnd := (rank_enum_spec (((ps.filter (fun p => p.has_played)).filterMap
      (fun p => (session_answers p.pid).map (participant_result p))).mergeSort
        detailed_le)).2
  refine ⟨?_, ?_, ?_, ?_, ?_, ?_, ?_, ?_⟩
  · intro pr hpr
    obtain ⟨ip, hip, hpr'⟩ := List.mem_map.mp hpr
    have h1 : pr.1 ∈ ((ps.filter
        (fun p => p.tournament_id == T && p.has_played)).mergeSort
          leaderboard_le).enum.map Prod.snd := by
      rw [← hpr']
      exact List.mem_map_of_mem Prod.snd hip
    rw [List.enum_map_snd] at h1
    have h2 := (List.mergeSort_perm _ leaderboard_le).subset h1
    have h3 := (List.mem_filter.mp h2).2
    simp only [Bool.and_eq_true, beq_iff_eq] at h3
    exact ⟨h3.2, h3.1⟩
  · rw [get_tournament_leaderboard]
    rw [hlfst]
    exact List.mergeSort_perm _ _
  · rw [get_tournament_leaderboard]
    rw [hlfst]
    exact List.sorted_mergeSort leaderboard_le_trans leaderboard_le_total _
  · rw [get_tournament_leaderboard]
    exact hlsnd
  · intro rr hrr
    obtain ⟨ip, hip, hrr'⟩ := List.mem_map.mp hrr
    have h1 : rr.1 ∈ (((ps.filter (fun p => p.has_played)).filterMap
        (fun p => (session_answers p.pid).map (participant_result p))).mergeSort
          detailed_le).enum.map Prod.snd := by
      rw [← hrr']
      exact List.mem_map_of_mem Prod.snd hip
    rw [List.enum_map_snd] at h1
    have h2 := (List.mergeSort_perm _ detailed_le).subset h1
    obtain ⟨p, hp, hpr⟩ := List.mem_filterMap.mp h2
    have h3 := List.mem_filter.mp hp
    exact ⟨p, h3.1, h3.2, hpr⟩
  · rw [get_tournament_detailed_results]
    rw [hdfst]
    exact List.mergeSort_perm _ _
  · rw [get_tournament_detailed_results]
    rw [hdfst]
    exact List.sorted_mergeSort detailed_le_trans detailed_le_total _
  · rw [get_tournament_detailed_results]
    exact hdsnd

/-- Witness for C5: a one-player tournament; the player appears on the
leaderboard with rank 1, and the theorem certifies the has-played and
tournament-membership facts for that entry. -/
theorem tournament_ranking_paths_witness :
    ((⟨2, 2, 1, true, 500, 95, 30, 0⟩ : TournamentParticipantRec), 1)
        ∈ get_tournament_leaderboard 1 [⟨2, 2, 1, true, 500, 95, 30, 0⟩] ∧
    ((⟨2, 2, 1, true, 500, 95, 30, 0⟩ : TournamentParticipantRec), 1).1.has_played
        = true ∧
    ((⟨2, 2, 1, true, 500, 95, 30, 0⟩ : TournamentParticipantRec), 1).1.tournament_id
        = 1 := by
  have hmem : ((⟨2, 2, 1, true, 500, 95, 30, 0⟩ : TournamentParticipantRec), 1)
      ∈ get_tournament_leaderboard 1 [⟨2, 2, 1, true, 500, 95, 30, 0⟩] := by
    simp [get_tournament_leaderboard, List.mergeSort]
  have h := (tournament_ranking_paths 1 [⟨2, 2, 1, true, 500, 95, 30, 0⟩]
    (fun _ => none)).1 _ hmem
  exact ⟨hmem, h.1, h.2⟩

/-! ## Claim C6: rank assignment on session completion -/

/-- C6.  After `complete_tournament_session`, the completed participant's
row has `has_played = true`, carries the session score, and its rank equals
1 plus the number of participants of the same tournament with
`has_played = true` and a strictly greater score (counted on the committed
post-update state); rows of other participants are untouched. -/
theorem complete_session_rank (ps : List TournamentParticipantRec) (pid : Nat)
    (tournament_id : Nat) (total_score : Int) (accuracy : ℚ) (time_spent : Int) :
    (∀ q ∈ complete_tournament_session ps pid tournament_id total_score accuracy
        time_spent,
      q.pid = pid →
        q.has_played = true ∧ q.score = total_score ∧
        q.rank = better_scores (mark_played ps pid total_score accuracy time_spent)
            tournament_id total_score + 1) ∧
    (∀ q ∈ complete_tournament_session ps pid tournament_id total_score accuracy
        time_spent, q.pid ≠ pid → q ∈ ps) := by
  have main : ∀ q ∈ complete_tournament_session ps pid tournament_id total_score
      accuracy time_spent,
      (q.pid = pid →
        q.has_played = true ∧ q.score = total_score ∧
        q.rank = better_scores (mark_played ps pid total_score accuracy time_spent)
            tournament_id total_score + 1) ∧
      (q.pid ≠ pid → q ∈ ps) := by
    intro q hq
    obtain ⟨p, hp, hqp⟩ := List.mem_map.mp hq
    obtain ⟨p0, hp0, hpp0⟩ := List.mem_map.mp hp
    by_cases hc : (p0.pid == pid) = true
    · have hp_eq : p =
          { p0 with has_played := true, score := total_score,
                    accuracy := accuracy, time_taken := time_spent } := by
        rw [← hpp0, if_pos hc]
      have hppid : (p.pid == pid) = true := by rw [hp_eq]; exact hc
      have hq_eq : q =
          { p with
            rank := better_scores
                (mark_played ps pid total_score accuracy time_spent) tournament_id
                total_score + 1 } := by
        rw [← hqp, if_pos hppid]
      constructor
      · intro _
        rw [hq_eq, hp_eq]
        exact ⟨rfl, rfl, rfl⟩
      · intro hqpid
        exfalso
        apply hqpid
        rw [hq_eq, hp_eq]
        exact beq_iff_eq.mp hc
    · have hp_eq : p = p0 := by rw [← hpp0, if_neg hc]
      have hppid : (p.pid == pid) = false := by
        rw [hp_eq]
        simpa using hc
      have hq_eq : q = p0 := by
        rw [← hqp, hppid]
        · simp only [Bool.false_eq_true, if_false]
          exact hp_eq
      constructor
      · intro hqpid
        exfalso
        apply hc
        rw [beq_iff_eq, ← hq_eq]
        exact hqpid
      · intro _
        rw [hq_eq]
        exact hp0
  exact ⟨fun q hq => (main q hq).1, fun q hq => (main q hq).2⟩

/-- Witness for C6: completing the second of two participants (the other
already played with a higher score) marks it played and ranks it second. -/
theorem complete_session_rank_witness :
    (⟨2, 2, 1, true, 100, 0, 30, 2⟩ : TournamentParticipantRec)
        ∈ complete_tournament_session
          [⟨1, 1, 1, true, 120, 90, 40, 1⟩, ⟨2, 2, 1, false, 0, 0, 0, 0⟩] 2 1 100 0 30 ∧
    ((⟨2, 2, 1, true, 100, 0, 30, 2⟩ : TournamentParticipantRec).has_played = true ∧
      (⟨2, 2, 1, true, 100, 0, 30, 2⟩ : TournamentParticipantRec).score = 100 ∧
      (⟨2, 2, 1, true, 100, 0, 30, 2⟩ : TournamentParticipantRec).rank
        = better_scores (mark_played
            [⟨1, 1, 1, true, 120, 90, 40, 1⟩, ⟨2, 2, 1, false, 0, 0, 0, 0⟩] 2 100 0 30)
            1 100 + 1) := by
  have hmem : (⟨2, 2, 1, true, 100, 0, 30, 2⟩ : TournamentParticipantRec)
      ∈ complete_tournament_session
        [⟨1, 1, 1, true, 120, 90, 40, 1⟩, ⟨2, 2, 1, false, 0, 0, 0, 0⟩] 2 1 100 0 30 := by
    decide
  exact ⟨hmem, (complete_session_rank
    [⟨1, 1, 1, true, 120, 90, 40, 1⟩, ⟨2, 2, 1, false, 0, 0, 0, 0⟩] 2 1 100 0 30).1
    _ hmem rfl⟩

/-! ## Facts about the achievement-evaluation loop -/

/-- Anything the loop unlocks has a definition whose name was not in the
existing set, and its predicate holds. -/
theorem evaluate_loop_unlocks_new (timeout_hit : Nat → Bool)
    (existing_names : List String) (user_stats : UserStats) (game_data : GameData) :
    ∀ (ids : List String) (step processed_count : Nat) (id : String),
      id ∈ evaluate_achievements_loop timeout_hit existing_names user_stats
        game_data ids step processed_count →
      ∃ nm, achievement_name id = some nm ∧ nm ∉ existing_names ∧
        should_unlock id user_stats game_data = true := by
  intro ids
  induction ids with
  | nil => intro step proc id hid; simp [evaluate_achievements_loop] at hid
  | cons a rest ih =>
    intro step proc id hid
    rw [evaluate_achievements_loop] at hid
    by_cases h1 : timeout_hit step = true
    · rw [if_pos h1] at hid
      simp at hid
    · rw [if_neg h1] at hid
      by_cases h2 : max_achievements_to_check ≤ proc
      · rw [if_pos h2] at hid
        simp at hid
      · rw [if_neg h2] at hid
        cases hn : achievement_name a with
        | none =>
          simp only [hn] at hid
          exact ih _ _ _ hid
        | some nm =>
          simp only [hn] at hid
          by_cases h3 : nm ∈ existing_names
          · rw [if_pos h3] at hid
            exact ih _ _ _ hid
          · rw [if_neg h3] at hid
            by_cases h4 : should_unlock a user_stats game_data = true
            · rw [if_pos h4] at hid
              rcases List.mem_cons.mp hid with rfl | hid
              · exact ⟨nm, hn, h3, h4⟩
              · exact ih _ _ _ hid
            · rw [if_neg h4] at hid
              exact ih _ _ _ hid

/-- When the wall-clock budget never fires and the whole id list fits in
the check budget, every satisfiable achievement is either already held or
unlocked by the loop. -/
theorem evaluate_loop_covers {timeout_hit : Nat → Bool}
    (ho : ∀ i, timeout_hit i = false)
    (existing_names : List String) (user_stats : UserStats) (game_data : GameData) :
    ∀ (ids : List String) (step processed_count : Nat),
      processed_count + ids.length ≤ max_achievements_to_check →
      ∀ id ∈ ids, ∀ nm, achievement_name id = some nm →
        should_unlock id user_stats game_data = true →
        nm ∈ existing_names ∨
          id ∈ evaluate_achievements_loop timeout_hit existing_names user_stats
            game_data ids step processed_count := by
  intro ids
  induction ids with
  | nil => intro step proc _ id hid; simp at hid
  | cons a rest ih =>
    intro step proc hbound id hid nm hnm hunlock
    rw [evaluate_achievements_loop]
    rw [ho step]
    simp only [Bool.false_eq_true, if_false]
    have h2 : ¬ (max_achievements_to_check ≤ proc) := by
      simp only [List.length_cons] at hbound
      omega
    rw [if_neg h2]
    have hbound' : proc + rest.length + 1 ≤ max_achievements_to_check := by
      simp only [List.length_cons] at hbound
      omega
    rcases List.mem_cons.mp hid with rfl | hid'
    · simp only [hnm]
      by_cases h3 : nm ∈ existing_names
      · exact .inl h3
      · rw [if_neg h3, if_pos hunlock]
        exact .inr (List.mem_cons_self _ _)
    · cases hn : achievement_name a with
      | none =>
        simp only []
        rcases ih (step + 1) proc (by omega) id hid' nm hnm hunlock with h | h
        · exact .inl h
        · exact .inr h
      | some nm' =>
        simp only []
        by_cases h3 : nm' ∈ existing_names
        · rw [if_pos h3]
          rcases ih (step + 1) (proc + 1) (by omega) id hid' nm hnm hunlock with h | h
          · exact .inl h
          · exact .inr h
        · rw [if_neg h3]
          by_cases h4 : should_unlock a user_stats game_data = true
          · rw [if_pos h4]
            rcases ih (step + 1) (proc + 1) (by omega) id hid' nm hnm hunlock with h | h
            · exact .inl h
            · exact .inr (List.mem_cons_of_mem a h)
          · rw [if_neg h4]
            rcases ih (step + 1) (proc + 1) (by omega) id hid' nm hnm hunlock with h | h
            · exact .inl h
            · exact .inr h

/-- When every satisfiable achievement's name is already in the existing
set, the loop unlocks nothing. -/
theorem evaluate_loop_all_covered (timeout_hit : Nat → Bool)
    (existing_names : List String) (user_stats : UserStats) (game_data : GameData) :
    ∀ (ids : List String) (step processed_count : Nat),
      (∀ id ∈ ids, ∀ nm, achievement_name id = some nm →
        should_unlock id user_stats game_data = true → nm ∈ existing_names) →
      evaluate_achievements_loop timeout_hit existing_names user_stats game_data
        ids step processed_count = [] := by
  intro ids
  induction ids with
  | nil => intro step proc _; rfl
  | cons a rest ih =>
    intro step proc hcov
    rw [evaluate_achievements_loop]
    by_cases h1 : timeout_hit step = true
    · rw [if_pos h1]
    · rw [if_neg h1]
      by_cases h2 : max_achievements_to_check ≤ proc
      · rw [if_pos h2]
      · rw [if_neg h2]
        have hrest : ∀ id ∈ rest, ∀ nm, achievement_name id = some nm →
            should_unlock id user_stats game_data = true → nm ∈ existing_names :=
          fun id hid => hcov id (List.mem_cons_of_mem a hid)
        cases hn : achievement_name a with
        | none =>
          simp only []
          exact ih _ _ hrest
        | some nm =>
          simp only []
          by_cases h3 : nm ∈ existing_names
          · rw [if_pos h3]
            exact ih _ _ hrest
          · rw [if_neg h3]
            by_cases h4 : should_unlock a user_stats game_data = true
            · exact absurd (hcov a (List.mem_cons_self a rest) nm hn h4) h3
            · rw [if_neg h4]
              exact ih _ _ hrest

/-! ## Claim C8: achievements unlock at most once -/

/-- C8.  The evaluator skips every achievement whose name is already held,
so no run unlocks a name from the existing set; and if a first run goes
through without hitting the wall-clock budget and its unlocks are persisted
(their names added to the existing set), a second run with the same stats
and game data — under any timeout behaviour — unlocks nothing. -/
theorem evaluate_achievements_idempotent (timeout1 timeout2 : Nat → Bool)
    (existing_names : List String) (user_stats : UserStats) (game_data : GameData)
    (h1 : ∀ i, timeout1 i = false) :
    (∀ nm ∈ unlocked_names
        (evaluate_achievements timeout1 existing_names user_stats game_data),
      nm ∉ existing_names) ∧
    evaluate_achievements timeout2
      (existing_names ++ unlocked_names
        (evaluate_achievements timeout1 existing_names user_stats game_data))
      user_stats game_data = [] := by
  constructor
  · intro nm hnm
    obtain ⟨aid, haid, hname⟩ := List.mem_filterMap.mp hnm
    obtain ⟨nm', hname', hnot, _⟩ := evaluate_loop_unlocks_new timeout1
      existing_names user_stats game_data priority_achievements 0 0 aid haid
    rw [hname'] at hname
    injection hname with h
    exact h ▸ hnot
  · apply evaluate_loop_all_covered
    intro aid haid nm hnm hunlock
    have hb : (0 : Nat) + priority_achievements.length ≤ max_achievements_to_check := by
      decide
    rcases evaluate_loop_covers h1 existing_names user_stats game_data
        priority_achievements 0 0 hb aid haid nm hnm hunlock with hex | hunl
    · exact List.mem_append_left _ hex
    · exact List.mem_append_right _ (List.mem_filterMap.mpr ⟨aid, hunl, hnm⟩)

/-- Witness for C8: a first run (never timing out) on an empty existing set
with stats that satisfy several predicates; the second run on the persisted
set returns no new achievements. -/
theorem evaluate_achievements_idempotent_witness :
    (∀ i : Nat, (fun _ : Nat => false) i = false) ∧
    ((∀ nm ∈ unlocked_names
        (evaluate_achievements (fun _ => false) [] ⟨1, 0⟩ ⟨120, 100, 45⟩),
      nm ∉ ([] : List String)) ∧
    evaluate_achievements (fun _ => false)
      ([] ++ unlocked_names
        (evaluate_achievements (fun _ => false) [] ⟨1, 0⟩ ⟨120, 100, 45⟩))
      ⟨1, 0⟩ ⟨120, 100, 45⟩ = []) :=
  ⟨fun _ => rfl,
   evaluate_achievements_idempotent (fun _ => false) (fun _ => false) [] ⟨1, 0⟩
     ⟨120, 100, 45⟩ (fun _ => rfl)⟩
